import Mathlib

/-!
Shallow embedding of the in-process cache layer of the isucon5-qualifying-go
application (app.go, footprints.go, entrycache.go) and proofs of the spec's
claims about it.

Conventions of the embedding:
* Go `int` is modelled as `Int`, `string` as `String`, `time.Time` as `Nat`
  (an abstract timestamp; no claim depends on time arithmetic).
* A Go `map[K]V` is modelled as a total function `K → Option V` when the code
  distinguishes presence (`v, ok := m[k]` / pointer maps whose zero value is
  `nil`), and as `K → V` returning the Go zero value for maps whose absent
  reads yield the zero value (e.g. `map[string]int` reads give `0`).
* The relational Store (MySQL) is external: every `Init` takes the row
  sequence its query returns as a parameter, and the lazy footprint cache
  takes the `fetchFootprint` Store accessor as a function parameter.
* Mutex locking is dropped: each cache operation is a single critical
  section, so the sequential functional semantics is its behaviour.
* Where an operation's Store side effects matter, the operation returns the
  write (or a fetch count) explicitly alongside the new cache state.
-/

namespace Isucon

/-- Row of the `users` table / item of `UserRepo` (app.go:33-38). -/
structure User where
  ID : Int
  AccountName : String
  NickName : String
  Email : String
deriving DecidableEq

/-- Row of the `profiles` table (app.go:102-110); `Birthday` is nullable. -/
structure Profile where
  UserID : Int
  FirstName : String
  LastName : String
  Sex : String
  Birthday : Option Nat
  Pref : String
  UpdatedAt : Nat
deriving DecidableEq

/-- Diary entry as cached (app.go:151-159). -/
structure Entry where
  ID : Int
  UserID : Int
  Private : Bool
  Title : String
  Content : String
  CreatedAt : Nat
  NumComments : Int
deriving DecidableEq

/-- Comment as cached, with denormalized entry owner and visibility
(app.go:237-245); the Go field `private` is spelled `priv` here because
`private` is a Lean keyword. -/
structure Comment where
  ID : Int
  EntryID : Int
  UserID : Int
  CommentText : String
  CreatedAt : Nat
  EntryOwnerID : Int
  priv : Bool
deriving DecidableEq

/-- Footprint group row (footprints.go:9-14): `UserID` is the visited user,
`OwnerID` the visitor. -/
structure Footprint where
  UserID : Int
  OwnerID : Int
  CreatedAt : Nat
  UpdatedAt : Nat
deriving DecidableEq

/-! ## RecencyWindow: EntryCache (entrycache.go) and CommentCache (app.go) -/

/-- Common body of `EntryCache.Insert` (entrycache.go:41-48) and
`CommentCache.Insert` (app.go:275-282): append the item at the tail; if the
window now holds more than 1000 items, keep only its last-1000 suffix
(`cc.Recent = cc.Recent[len(cc.Recent)-1000:]`). -/
def recencyInsert {α : Type} (w : List α) (e : α) : List α :=
  let w2 := w ++ [e]
  if 1000 < w2.length then w2.drop (w2.length - 1000) else w2

/-- One iteration body of the reversal loop in `EntryCache.Init`
(entrycache.go:35-38) and `CommentCache.Init` (app.go:269-271): the Go
parallel assignment `l[i], l[j] = l[j], l[i]`.  Out-of-range indices leave
the list unchanged (the loop never produces them). -/
def swapAt {α : Type} (l : List α) (i j : Nat) : List α :=
  match l[i]?, l[j]? with
  | some x, some y => (l.set i y).set j x
  | _, _ => l

/-- First `k` iterations of `for i := 0; i < len(l)/2; i++ { swap i (len-1-i) }`.
`swapAt` preserves length, so using the initial list's length for the bound
and the mirror index matches the Go code, which re-reads `len(cc.Recent)`
each iteration. -/
def revLoop {α : Type} (l : List α) : Nat → List α
  | 0 => l
  | k + 1 => swapAt (revLoop l k) k (l.length - 1 - k)

/-- The complete in-place reversal loop of the two `Init` methods. -/
def reverseInPlace {α : Type} (l : List α) : List α :=
  revLoop l (l.length / 2)

/-- EntryCache (entrycache.go:9-12): globally bounded window of the most
recent diary entries, oldest first. -/
structure EntryCache where
  Recent : List Entry
deriving DecidableEq

/-- Package-level `var entryCache EntryCache` (entrycache.go:14): zero value,
empty window. -/
def entryCache0 : EntryCache := ⟨[]⟩

/-- `EntryCache.Init` (entrycache.go:16-39). `rows` is the result of the
Store query `SELECT ... ORDER BY created_at DESC LIMIT 1000` (newest first);
the method stores it and then reverses it in place. -/
def EntryCache.Init (rows : List Entry) : EntryCache :=
  ⟨reverseInPlace rows⟩

/-- `EntryCache.Insert` (entrycache.go:41-48). -/
def EntryCache.Insert (cc : EntryCache) (e : Entry) : EntryCache :=
  ⟨recencyInsert cc.Recent e⟩

/-- `EntryCache.Get` (entrycache.go:50-54). -/
def EntryCache.Get (cc : EntryCache) : List Entry :=
  cc.Recent

/-- CommentCache (app.go:247-250). -/
structure CommentCache where
  Recent : List Comment
deriving DecidableEq

/-- Package-level `var commentCache CommentCache` (app.go:252). -/
def commentCache0 : CommentCache := ⟨[]⟩

/-- `CommentCache.Init` (app.go:254-273): stores the newest-first Store rows
and reverses them in place. -/
def CommentCache.Init (rows : List Comment) : CommentCache :=
  ⟨reverseInPlace rows⟩

/-- `CommentCache.Insert` (app.go:275-282). -/
def CommentCache.Insert (cc : CommentCache) (c : Comment) : CommentCache :=
  ⟨recencyInsert cc.Recent c⟩

/-- `CommentCache.Get` (app.go:284-288). -/
def CommentCache.Get (cc : CommentCache) : List Comment :=
  cc.Recent

/-! ## AdjacencyCache: FriendRepo (app.go:166-235) -/

/-- FriendRepo (app.go:166-169): `friend map[int]map[int]bool`.  A key with
no stored inner map reads as `nil`, modelled by `none`; an inner
`map[int]bool` reads `false` at absent keys, modelled by a total function. -/
structure FriendRepo where
  friend : Int → Option (Int → Bool)

/-- Package-level `var friendRepo = FriendRepo{friend: make(...)}`
(app.go:171): empty outer map. -/
def friendRepo0 : FriendRepo := ⟨fun _ => none⟩

/-- `FriendRepo.Reset` (app.go:173-177): replace the outer map by a fresh
empty one. -/
def FriendRepo.Reset (_fr : FriendRepo) : FriendRepo := ⟨fun _ => none⟩

/-- `FriendRepo.Insert` (app.go:179-197): no-op when `a == b`; otherwise add
`b` to `a`'s adjacency set (creating it if `nil`), then add `a` to `b`'s
set read from the already-updated outer map, all in one critical section. -/
def FriendRepo.Insert (fr : FriendRepo) (a b : Int) : FriendRepo :=
  if a = b then fr
  else
    let aa := (fr.friend a).getD (fun _ => false)
    let aa2 : Int → Bool := fun y => if y = b then true else aa y
    let f1 : Int → Option (Int → Bool) := fun k => if k = a then some aa2 else fr.friend k
    let bb := (f1 b).getD (fun _ => false)
    let bb2 : Int → Bool := fun y => if y = a then true else bb y
    ⟨fun k => if k = b then some bb2 else f1 k⟩

/-- `FriendRepo.IsFriend` (app.go:199-210): `true` when `a == b`; otherwise
test membership of `b` in `a`'s set, `false` when the set is `nil`. -/
def FriendRepo.IsFriend (fr : FriendRepo) (a b : Int) : Bool :=
  if a = b then true
  else
    match fr.friend a with
    | none => false
    | some aa => aa b

/-- `FriendRepo.Init` (app.go:223-235): `Reset` then insert every
`(one, another)` relation row streamed from the Store. -/
def FriendRepo.Init (fr : FriendRepo) (rows : List (Int × Int)) : FriendRepo :=
  rows.foldl (fun g p => g.Insert p.1 p.2) fr.Reset

/-! ## SnapshotMirror: UserRepo (app.go:40-100) and ProfileRepo (app.go:112-147) -/

/-- UserRepo (app.go:40-45).  `users` is `map[int]*User` (absent reads are
`nil`, i.e. `none`); `byMail` and `byAccount` are `map[string]int`, whose
absent reads are the zero value `0`. -/
structure UserRepo where
  users : Int → Option User
  byMail : String → Int
  byAccount : String → Int

/-- Loop body of `UserRepo.Init` (app.go:58-67): store the row in the
primary map and point both secondary indexes at its id. -/
def UserRepo.insertRow (r : UserRepo) (u : User) : UserRepo :=
  { users := fun k => if k = u.ID then some u else r.users k
    byMail := fun e => if e = u.Email then u.ID else r.byMail e
    byAccount := fun a => if a = u.AccountName then u.ID else r.byAccount a }

/-- `UserRepo.Init` (app.go:47-69): fresh empty maps, then insert every row
of `SELECT id, account_name, nick_name, email FROM users` in order. -/
def UserRepo.Init (rows : List User) : UserRepo :=
  rows.foldl UserRepo.insertRow ⟨fun _ => none, fun _ => 0, fun _ => 0⟩

/-- `UserRepo.Get` (app.go:71-76). -/
def UserRepo.Get (r : UserRepo) (id : Int) : Option User :=
  r.users id

/-- `UserRepo.GetByMail` (app.go:78-87): look the id up in the secondary
index; only when it is nonzero dereference the primary map, else return the
`nil` the local `u` was initialized with.  The Store is never consulted. -/
def UserRepo.GetByMail (r : UserRepo) (email : String) : Option User :=
  let uid := r.byMail email
  if uid ≠ 0 then r.users uid else none

/-- `UserRepo.GetByAccount` (app.go:89-98): same shape as `GetByMail` over
the account-name index. -/
def UserRepo.GetByAccount (r : UserRepo) (account : String) : Option User :=
  let uid := r.byAccount account
  if uid ≠ 0 then r.users uid else none

/-- ProfileRepo (app.go:112-115): `profiles map[int]*Profile`. -/
structure ProfileRepo where
  profiles : Int → Option Profile

/-- `ProfileRepo.Get` (app.go:117-121). -/
def ProfileRepo.Get (r : ProfileRepo) (id : Int) : Option Profile :=
  r.profiles id

/-- `ProfileRepo.Update` (app.go:123-127): wholesale replacement of the
profile stored under `id`. -/
def ProfileRepo.Update (r : ProfileRepo) (id : Int) (prof : Profile) : ProfileRepo :=
  ⟨fun k => if k = id then some prof else r.profiles k⟩

/-- `ProfileRepo.Init` (app.go:129-147): fresh map, then store every row of
`SELECT * FROM profiles` under its user id. -/
def ProfileRepo.Init (rows : List Profile) : ProfileRepo :=
  rows.foldl (fun r prof => ⟨fun k => if k = prof.UserID then some prof else r.profiles k⟩)
    ⟨fun _ => none⟩

/-! ## LazyPerKeyCache: FoopprintCache (footprints.go) -/

/-- FoopprintCache (footprints.go:16-19): `cache map[int][]Footprint`.
Presence is significant (`fps, ok := c.cache[userID]`), hence `Option`. -/
structure FoopprintCache where
  cache : Int → Option (List Footprint)

/-- Package-level `var footPrintCache = FoopprintCache{cache: make(...)}`
(footprints.go:21): empty map. -/
def footPrintCache0 : FoopprintCache := ⟨fun _ => none⟩

/-- `FoopprintCache.Reset` (footprints.go:23-27): replace the map by a fresh
empty one. -/
def FoopprintCache.Reset (_c : FoopprintCache) : FoopprintCache := ⟨fun _ => none⟩

/-- `FoopprintCache.Get` (footprints.go:29-39).  `fetch` is the external
`fetchFootprint` Store accessor (footprints.go:58-75), passed as a
parameter because it is a SQL query; the method calls it with limit 50 on a
miss.  The returned `Nat` counts the Store fetches this call performed
(0 on a hit, 1 on a miss) so that the spec's fetch-counting claims can be
stated; it instruments, and does not alter, the Go control flow. -/
def FoopprintCache.Get (c : FoopprintCache) (fetch : Int → Nat → List Footprint)
    (userID : Int) : List Footprint × FoopprintCache × Nat :=
  match c.cache userID with
  | some fps => (fps, c, 0)
  | none =>
      let fps := fetch userID 50
      (fps, ⟨fun k => if k = userID then some fps else c.cache k⟩, 1)

/-- `FoopprintCache.Invalidate` (footprints.go:41-45): delete the entry for
`userID`. -/
def FoopprintCache.Invalidate (c : FoopprintCache) (userID : Int) : FoopprintCache :=
  ⟨fun k => if k = userID then none else c.cache k⟩

/-- State touched by `markFootprint`: the log of footprint rows the Store
was asked to write (as `(user_id, owner_id)` pairs of the
`replace INTO footprints` statement; the REPLACE upsert itself happens
inside the external Store) together with the footprint cache. -/
structure FPState where
  writes : List (Int × Int)
  cache : FoopprintCache

/-- `markFootprint` (footprints.go:47-56), the `recordVisit` write path:
when `visitor != id` it executes one
`replace INTO footprints (user_id, owner_id, ...) VALUES (id, visitor, ...)`
against the Store and then invalidates the cache entry of the visited user
`id`; when `visitor == id` it does nothing. -/
def markFootprint (s : FPState) (visitor id : Int) : FPState :=
  if visitor ≠ id then
    { writes := s.writes ++ [(id, visitor)], cache := s.cache.Invalidate id }
  else s

/-! ## Process wiring: startup (app.go main) and GetInitialize (app.go:821-833) -/

/-- Abstract Store contents, one field per query the cache layer issues:
`users` and `profiles` are full-table scans, `relations` the edge rows,
`entryRows` and `commentRows` the newest-first `LIMIT 1000` results, and
`footprints` the `fetchFootprint(userID, limit)` accessor. -/
structure Store where
  users : List User
  profiles : List Profile
  relations : List (Int × Int)
  entryRows : List Entry
  commentRows : List Comment
  footprints : Int → Nat → List Footprint

/-- The six package-level cache singletons. -/
structure Caches where
  userRepo : UserRepo
  profileRepo : ProfileRepo
  friendRepo : FriendRepo
  entryCache : EntryCache
  commentCache : CommentCache
  footPrintCache : FoopprintCache

/-- Entry whose identity is the number `i`; used to state the numbered
insertion scenarios. -/
def entryNo (i : Nat) : Entry :=
  { ID := (i : Int), UserID := 0, Private := false, Title := "", Content := ""
    CreatedAt := 0, NumComments := 0 }

/-- Comment whose identity is the number `i`. -/
def commentNo (i : Nat) : Comment :=
  { ID := (i : Int), EntryID := 0, UserID := 0, CommentText := "", CreatedAt := 0
    EntryOwnerID := 0, priv := false }

/-- Cache state at process start after `main` (app.go:889-893) has run
`friendRepo.Init(); commentCache.Init(); userRepo.Init(); entryCache.Init();
profileRepo.Init()`: every eager cache is bulk-loaded, while
`footPrintCache` keeps its package-initializer empty map — `main` never
loads or resets it. -/
def startupCaches (s : Store) : Caches :=
  { userRepo := UserRepo.Init s.users
    profileRepo := ProfileRepo.Init s.profiles
    friendRepo := friendRepo0.Init s.relations
    entryCache := EntryCache.Init s.entryRows
    commentCache := CommentCache.Init s.commentRows
    footPrintCache := footPrintCache0 }

/-- `GetInitialize` (app.go:821-833) as it acts on the caches, given the
Store contents `s` as they stand after the handler's four `DELETE`
truncations (the truncations act on the external Store and are not part of
the cache layer): it re-runs every eager cache's `Init` and calls
`footPrintCache.Reset()`, which empties the lazy cache without loading it.
`prev` is the cache state being overwritten. -/
def GetInitialize (prev : Caches) (s : Store) : Caches :=
  { userRepo := UserRepo.Init s.users
    profileRepo := ProfileRepo.Init s.profiles
    friendRepo := prev.friendRepo.Init s.relations
    entryCache := EntryCache.Init s.entryRows
    commentCache := CommentCache.Init s.commentRows
    footPrintCache := prev.footPrintCache.Reset }

/-! ## RecencyWindow lemmas -/

theorem recencyInsert_of_gt {α : Type} (w : List α) (e : α)
    (h : 1000 < (w ++ [e]).length) :
    recencyInsert w e = (w ++ [e]).drop ((w ++ [e]).length - 1000) := by
  show (if 1000 < (w ++ [e]).length then (w ++ [e]).drop ((w ++ [e]).length - 1000)
    else w ++ [e]) = (w ++ [e]).drop ((w ++ [e]).length - 1000)
  split
  · rfl
  · next hc => exact absurd h hc

theorem recencyInsert_of_le {α : Type} (w : List α) (e : α)
    (h : ¬ 1000 < (w ++ [e]).length) :
    recencyInsert w e = w ++ [e] := by
  show (if 1000 < (w ++ [e]).length then (w ++ [e]).drop ((w ++ [e]).length - 1000)
    else w ++ [e]) = w ++ [e]
  split
  · next hc => exact absurd hc h
  · rfl

theorem drop_append_of_le {α : Type} :
    ∀ (n : Nat) (l1 l2 : List α), n ≤ l1.length → (l1 ++ l2).drop n = l1.drop n ++ l2
  | 0, _, _, _ => by simp
  | n + 1, [], _, h => by simp at h
  | n + 1, a :: l1, l2, h => by
      simp only [List.cons_append, List.drop_succ_cons]
      exact drop_append_of_le n l1 l2 (by simpa using h)

theorem drop_congr_index {α : Type} {l : List α} {i j : Nat} (h : i = j) :
    l.drop i = l.drop j := by
  rw [h]

/-- Folding inserts over a window of legal length trims exactly to the
last-1000 suffix of the concatenation. -/
theorem foldl_recencyInsert_eq {α : Type} :
    ∀ (es w : List α), w.length ≤ 1000 →
      es.foldl recencyInsert w = (w ++ es).drop (w.length + es.length - 1000)
  | [], w, hw => by
      simp only [List.foldl_nil, List.append_nil, List.length_nil, Nat.add_zero]
      rw [Nat.sub_eq_zero_of_le hw, List.drop_zero]
  | e :: es, w, hw => by
      simp only [List.foldl_cons]
      have hww : (w ++ [e]).length = w.length + 1 := by simp
      by_cases h : 1000 < (w ++ [e]).length
      · have hlen : w.length = 1000 := by rw [hww] at h; omega
        have h1 : recencyInsert w e = (w ++ [e]).drop 1 := by
          rw [recencyInsert_of_gt w e h]
          apply drop_congr_index
          rw [hww]
          omega
        have h2 : ((w ++ [e]).drop 1).length ≤ 1000 := by
          simp only [List.length_drop]
          rw [hww]
          omega
        rw [h1, foldl_recencyInsert_eq es _ h2]
        rw [← drop_append_of_le 1 (w ++ [e]) es (by rw [hww]; omega), List.drop_drop,
          List.append_assoc]
        simp only [List.singleton_append]
        apply drop_congr_index
        simp only [List.length_drop, List.length_append, List.length_singleton,
          List.length_cons, List.length_nil]
        omega
      · have h1 : recencyInsert w e = w ++ [e] := recencyInsert_of_le w e h
        rw [hww] at h
        rw [h1, foldl_recencyInsert_eq es (w ++ [e]) (by rw [hww]; omega)]
        rw [List.append_assoc]
        simp only [List.singleton_append]
        apply drop_congr_index
        simp only [List.length_append, List.length_singleton, List.length_cons,
          List.length_nil]
        omega

theorem length_foldl_recencyInsert_le {α : Type} (es w : List α) (hw : w.length ≤ 1000) :
    (es.foldl recencyInsert w).length ≤ 1000 := by
  rw [foldl_recencyInsert_eq es w hw]
  simp only [List.length_drop, List.length_append]
  omega

/-- Folding `EntryCache.Insert` is folding `recencyInsert` on the window. -/
theorem foldl_entryInsert_recent (es : List Entry) :
    ∀ cc : EntryCache, (es.foldl EntryCache.Insert cc).Recent = es.foldl recencyInsert cc.Recent := by
  induction es with
  | nil => intro cc; rfl
  | cons e es ih =>
      intro cc
      simp only [List.foldl_cons]
      exact ih (cc.Insert e)

/-- Folding `CommentCache.Insert` is folding `recencyInsert` on the window. -/
theorem foldl_commentInsert_recent (cs : List Comment) :
    ∀ cc : CommentCache, (cs.foldl CommentCache.Insert cc).Recent = cs.foldl recencyInsert cc.Recent := by
  induction cs with
  | nil => intro cc; rfl
  | cons c cs ih =>
      intro cc
      simp only [List.foldl_cons]
      exact ih (cc.Insert c)

/-- **C1** For every sequence of `Insert` calls on a RecencyWindow
(EntryCache or CommentCache) starting from any state of length at most
1000, the window's length is at most 1000 after each insert: every prefix
of the insert sequence leaves a window of length at most 1000. -/
theorem recencyWindow_capacity (w : List Entry) (v : List Comment)
    (hw : w.length ≤ 1000) (hv : v.length ≤ 1000)
    (es : List Entry) (cs : List Comment) (n : Nat) :
    (((es.take n).foldl EntryCache.Insert ⟨w⟩).Get).length ≤ 1000 ∧
    (((cs.take n).foldl CommentCache.Insert ⟨v⟩).Get).length ≤ 1000 := by
  constructor
  · show ((es.take n).foldl EntryCache.Insert ⟨w⟩).Recent.length ≤ 1000
    rw [foldl_entryInsert_recent]
    exact length_foldl_recencyInsert_le _ _ hw
  · show ((cs.take n).foldl CommentCache.Insert ⟨v⟩).Recent.length ≤ 1000
    rw [foldl_commentInsert_recent]
    exact length_foldl_recencyInsert_le _ _ hv

theorem entryCache_Get_def (cc : EntryCache) : cc.Get = cc.Recent := rfl

theorem commentCache_Get_def (cc : CommentCache) : cc.Get = cc.Recent := rfl

theorem length_swapAt {α : Type} (l : List α) (i j : Nat) :
    (swapAt l i j).length = l.length := by
  unfold swapAt
  split
  · simp
  · rfl

theorem length_revLoop {α : Type} (l : List α) (k : Nat) :
    (revLoop l k).length = l.length := by
  induction k with
  | zero => rfl
  | succ k ih => simp only [revLoop, length_swapAt, ih]

/-- After `k` iterations of the swap loop the first `k` and last `k`
positions hold the mirrored elements and the middle is untouched. -/
theorem revLoop_getElem? {α : Type} (l : List α) (k : Nat) :
    2 * k ≤ l.length → ∀ m, m < l.length →
      (revLoop l k)[m]? = if m < k ∨ l.length - k ≤ m then l[l.length - 1 - m]? else l[m]? := by
  induction k with
  | zero =>
      intro _ m hm
      rw [if_neg (by omega)]
      rfl
  | succ k ih =>
      intro hk m hm
      have hk' : 2 * k ≤ l.length := by omega
      have hkn : k < l.length := by omega
      have hjn : l.length - 1 - k < l.length := by omega
      have hlenk : (revLoop l k).length = l.length := length_revLoop l k
      rcases hx : (revLoop l k)[k]? with _ | x
      · rw [List.getElem?_eq_none_iff, hlenk] at hx
        omega
      rcases hy : (revLoop l k)[l.length - 1 - k]? with _ | y
      · rw [List.getElem?_eq_none_iff, hlenk] at hy
        omega
      have hxl : some x = l[k]? := by
        rw [← hx, ih hk' k hkn, if_neg (by omega)]
      have hyl : some y = l[l.length - 1 - k]? := by
        rw [← hy, ih hk' (l.length - 1 - k) hjn, if_neg (by omega)]
      simp only [revLoop, swapAt, hx, hy]
      by_cases hmj : m = l.length - 1 - k
      · subst hmj
        rw [List.getElem?_set_self (by rw [List.length_set, hlenk]; omega)]
        rw [if_pos (by omega)]
        have hidx : l.length - 1 - (l.length - 1 - k) = k := by omega
        rw [hidx]
        exact hxl
      · by_cases hmk : m = k
        · rw [hmk]
          rw [List.getElem?_set_ne (show l.length - 1 - k ≠ k from by omega)]
          rw [List.getElem?_set_self (by rw [hlenk]; omega)]
          rw [if_pos (by omega)]
          exact hyl
        · rw [List.getElem?_set_ne (show l.length - 1 - k ≠ m from by omega)]
          rw [List.getElem?_set_ne (show k ≠ m from by omega)]
          rw [ih hk' m hm]
          by_cases hc : m < k ∨ l.length - k ≤ m
          · rw [if_pos hc, if_pos (by omega)]
          · rw [if_neg hc, if_neg (by omega)]

/-- The two-pointer swap loop of the `Init` methods computes list reversal. -/
theorem reverseInPlace_eq_reverse {α : Type} (l : List α) :
    reverseInPlace l = l.reverse := by
  apply List.ext_getElem?
  intro m
  by_cases hm : m < l.length
  · show (revLoop l (l.length / 2))[m]? = l.reverse[m]?
    rw [revLoop_getElem? l (l.length / 2) (by omega) m hm, List.getElem?_reverse hm]
    by_cases hc : m < l.length / 2 ∨ l.length - l.length / 2 ≤ m
    · rw [if_pos hc]
    · rw [if_neg hc]
      have hmid : l.length - 1 - m = m := by omega
      rw [hmid]
  · have e1 : (reverseInPlace l)[m]? = none := by
      rw [List.getElem?_eq_none_iff]
      simp only [reverseInPlace, length_revLoop]
      omega
    have e2 : l.reverse[m]? = none := by
      rw [List.getElem?_eq_none_iff, List.length_reverse]
      omega
    rw [e1, e2]

theorem recencyWindow_capacity_witness :
    ((([entryNo 1].take 1).foldl EntryCache.Insert ⟨[]⟩).Get).length ≤ 1000 ∧
    ((([commentNo 1].take 1).foldl CommentCache.Insert ⟨[]⟩).Get).length ≤ 1000 :=
  recencyWindow_capacity [] [] (by decide) (by decide) [entryNo 1] [commentNo 1] 1

/-- **C4** For every result sequence the Store returns newest-first, `Init`
leaves the window equal to the exact reversal of that sequence — oldest at
the front, newest at the tail — for both EntryCache and CommentCache (in
particular for every sequence of length at most 1000, which is all the
`LIMIT 1000` query can produce). -/
theorem recencyWindow_init_reverses (erows : List Entry) (crows : List Comment) :
    (EntryCache.Init erows).Get = erows.reverse ∧
    (CommentCache.Init crows).Get = crows.reverse :=
  ⟨reverseInPlace_eq_reverse erows, reverseInPlace_eq_reverse crows⟩

/-- Inserting the items numbered `1..1001` into an empty window leaves the
suffix numbered `2..1001`. -/
theorem foldl_recencyInsert_range' {α : Type} (f : Nat → α) :
    ((List.range' 1 1001).map f).foldl recencyInsert [] = (List.range' 2 1000).map f := by
  rw [foldl_recencyInsert_eq _ [] (by simp)]
  have hidx : ([] : List α).length + ((List.range' 1 1001).map f).length - 1000 = 1 := by
    simp
  rw [hidx, List.nil_append]
  have hr : List.range' 1 1001 = 1 :: List.range' 2 1000 := by
    rw [show (1001 : Nat) = 1000 + 1 from rfl, List.range'_succ]
  rw [hr, List.map_cons, List.drop_succ_cons, List.drop_zero]

theorem head?_map_range' {α : Type} (f : Nat → α) :
    ((List.range' 2 1000).map f).head? = some (f 2) := by
  rw [show (1000 : Nat) = 999 + 1 from rfl, List.range'_succ, List.map_cons, List.head?_cons]

theorem getLast?_map_range' {α : Type} (f : Nat → α) :
    ((List.range' 2 1000).map f).getLast? = some (f 1001) := by
  rw [show (1000 : Nat) = 999 + 1 from rfl, List.range'_1_concat, List.map_append]
  rw [show (2 + 999 : Nat) = 1001 from rfl, List.map_singleton, List.getLast?_concat]

/-- **C3** Inserting the 1001 items numbered `1..1001` in order into an
empty RecencyWindow leaves exactly the items `2..1001` in insertion order:
`Get()` has length 1000, its first element is item 2 and its last is item
1001 — for EntryCache and for CommentCache. -/
theorem recencyWindow_eviction :
    ((((List.range' 1 1001).map entryNo).foldl EntryCache.Insert entryCache0).Get =
        (List.range' 2 1000).map entryNo ∧
      ((((List.range' 1 1001).map entryNo).foldl EntryCache.Insert entryCache0).Get).length
          = 1000 ∧
      ((((List.range' 1 1001).map entryNo).foldl EntryCache.Insert entryCache0).Get).head?
          = some (entryNo 2) ∧
      ((((List.range' 1 1001).map entryNo).foldl EntryCache.Insert entryCache0).Get).getLast?
          = some (entryNo 1001)) ∧
    ((((List.range' 1 1001).map commentNo).foldl CommentCache.Insert commentCache0).Get =
        (List.range' 2 1000).map commentNo ∧
      ((((List.range' 1 1001).map commentNo).foldl CommentCache.Insert commentCache0).Get).length
          = 1000 ∧
      ((((List.range' 1 1001).map commentNo).foldl CommentCache.Insert commentCache0).Get).head?
          = some (commentNo 2) ∧
      ((((List.range' 1 1001).map commentNo).foldl CommentCache.Insert commentCache0).Get).getLast?
          = some (commentNo 1001)) := by
  have he : (((List.range' 1 1001).map entryNo).foldl EntryCache.Insert entryCache0).Get =
      (List.range' 2 1000).map entryNo := by
    rw [entryCache_Get_def, foldl_entryInsert_recent,
      show entryCache0.Recent = [] from rfl, foldl_recencyInsert_range']
  have hc : (((List.range' 1 1001).map commentNo).foldl CommentCache.Insert commentCache0).Get =
      (List.range' 2 1000).map commentNo := by
    rw [commentCache_Get_def, foldl_commentInsert_recent,
      show commentCache0.Recent = [] from rfl, foldl_recencyInsert_range']
  refine ⟨⟨he, ?_, ?_, ?_⟩, hc, ?_, ?_, ?_⟩
  · rw [he]; simp
  · rw [he, head?_map_range']
  · rw [he, getLast?_map_range']
  · rw [hc]; simp
  · rw [hc, head?_map_range']
  · rw [hc, getLast?_map_range']

/-! ## AdjacencyCache lemmas -/

theorem isFriend_self (fr : FriendRepo) (x : Int) : fr.IsFriend x x = true := by
  unfold FriendRepo.IsFriend
  rw [if_pos rfl]

theorem isFriend_ne (fr : FriendRepo) {u v : Int} (h : u ≠ v) :
    fr.IsFriend u v = ((fr.friend u).getD (fun _ => false)) v := by
  unfold FriendRepo.IsFriend
  rw [if_neg h]
  rcases hfu : fr.friend u with _ | m
  · simp [hfu]
  · simp [hfu]

/-- Pointwise description of the outer map after an `Insert` with `a ≠ b`. -/
theorem insert_friend_eq (fr : FriendRepo) (a b : Int) (hab : a ≠ b) (k : Int) :
    (fr.Insert a b).friend k =
      if k = b then
        some (fun y => if y = a then true else ((fr.friend b).getD (fun _ => false)) y)
      else if k = a then
        some (fun y => if y = b then true else ((fr.friend a).getD (fun _ => false)) y)
      else fr.friend k := by
  unfold FriendRepo.Insert
  rw [if_neg hab]
  simp only [if_neg (Ne.symm hab)]

/-- Membership in an adjacency set after an `Insert` with `a ≠ b`. -/
theorem insert_adj (fr : FriendRepo) (a b : Int) (hab : a ≠ b) (x y : Int) :
    (((fr.Insert a b).friend x).getD (fun _ => false)) y = true ↔
      ((((fr.friend x).getD (fun _ => false)) y = true) ∨ (x = a ∧ y = b) ∨ (x = b ∧ y = a)) := by
  rw [insert_friend_eq fr a b hab x]
  by_cases hxb : x = b
  · rw [if_pos hxb, Option.getD_some]
    by_cases hya : y = a
    · rw [if_pos hya]
      simp [hxb, hya]
    · rw [if_neg hya]
      rw [hxb]
      simp [Ne.symm hab, hya]
  · rw [if_neg hxb]
    by_cases hxa : x = a
    · rw [if_pos hxa, Option.getD_some]
      by_cases hyb : y = b
      · rw [if_pos hyb]
        simp [hxa, hyb]
      · rw [if_neg hyb]
        rw [hxa]
        simp [hab, hyb]
    · rw [if_neg hxa]
      simp [hxa, hxb]

/-- The adjacency relation that `IsFriend` reports after an `Insert` with
`a ≠ b` is the old relation plus the edge in both directions. -/
theorem isFriend_insert (fr : FriendRepo) (a b : Int) (hab : a ≠ b) (x y : Int) :
    ((fr.Insert a b).IsFriend x y = true ↔
      (fr.IsFriend x y = true ∨ (x = a ∧ y = b) ∨ (x = b ∧ y = a))) := by
  by_cases hxy : x = y
  · rw [hxy]
    simp [isFriend_self]
  · rw [isFriend_ne (fr.Insert a b) hxy, isFriend_ne fr hxy]
    exact insert_adj fr a b hab x y

/-- **C2** For every pair `(a,b)` with `a ≠ b`, after `Insert(a,b)` both
`IsFriend(a,b)` and `IsFriend(b,a)` return true, and symmetry of the
adjacency relation is preserved by the insert. -/
theorem friendRepo_insert_symmetric (fr : FriendRepo) (a b : Int) (hab : a ≠ b)
    (hsym : ∀ x y, fr.IsFriend x y = fr.IsFriend y x) :
    (fr.Insert a b).IsFriend a b = true ∧ (fr.Insert a b).IsFriend b a = true ∧
    ∀ x y, (fr.Insert a b).IsFriend x y = (fr.Insert a b).IsFriend y x := by
  have flip : ∀ u v, (fr.IsFriend u v = true ∨ (u = a ∧ v = b) ∨ (u = b ∧ v = a)) →
      (fr.IsFriend v u = true ∨ (v = a ∧ u = b) ∨ (v = b ∧ u = a)) := by
    rintro u v (h | ⟨rfl, rfl⟩ | ⟨rfl, rfl⟩)
    · left
      rw [← hsym u v]
      exact h
    · right; right; exact ⟨rfl, rfl⟩
    · right; left; exact ⟨rfl, rfl⟩
  refine ⟨?_, ?_, ?_⟩
  · exact (isFriend_insert fr a b hab a b).mpr (Or.inr (Or.inl ⟨rfl, rfl⟩))
  · exact (isFriend_insert fr a b hab b a).mpr (Or.inr (Or.inr ⟨rfl, rfl⟩))
  · intro x y
    cases hv : (fr.Insert a b).IsFriend x y with
    | true =>
        exact ((isFriend_insert fr a b hab y x).mpr
          (flip x y ((isFriend_insert fr a b hab x y).mp hv))).symm
    | false =>
        cases hv2 : (fr.Insert a b).IsFriend y x with
        | false => rfl
        | true =>
            have hcontra : (fr.Insert a b).IsFriend x y = true :=
              (isFriend_insert fr a b hab x y).mpr
                (flip y x ((isFriend_insert fr a b hab y x).mp hv2))
            rw [hv] at hcontra
            exact Bool.noConfusion hcontra

theorem friendRepo_insert_symmetric_witness :
    ((5 : Int) ≠ 9) ∧ (friendRepo0.Insert 5 9).IsFriend 5 9 = true ∧
      (friendRepo0.Insert 5 9).IsFriend 9 5 = true := by
  have hsym : ∀ x y, friendRepo0.IsFriend x y = friendRepo0.IsFriend y x := by
    intro x y
    by_cases h : x = y
    · rw [h]
    · rw [isFriend_ne friendRepo0 h, isFriend_ne friendRepo0 (Ne.symm h)]
      rfl
  have h := friendRepo_insert_symmetric friendRepo0 5 9 (by decide) hsym
  exact ⟨by decide, h.1, h.2.1⟩

/-! ## LazyPerKeyCache lemmas -/

theorem foopprint_get_hit (c : FoopprintCache) (fetch : Int → Nat → List Footprint)
    (k : Int) (fps : List Footprint) (h : c.cache k = some fps) :
    c.Get fetch k = (fps, c, 0) := by
  unfold FoopprintCache.Get
  rw [h]

theorem foopprint_get_miss (c : FoopprintCache) (fetch : Int → Nat → List Footprint)
    (k : Int) (h : c.cache k = none) :
    c.Get fetch k =
      (fetch k 50, ⟨fun j => if j = k then some (fetch k 50) else c.cache j⟩, 1) := by
  unfold FoopprintCache.Get
  rw [h]

/-- **C5** `Get(k)` fetches from the Store exactly when `k` is absent: on an
empty cache the first `Get(k)` performs one fetch and stores its result, a
second `Get(k)` with no intervening invalidation performs zero fetches and
returns the same contents with the cache unchanged, and after
`Invalidate(k)` the next `Get(k)` performs one fresh fetch. -/
theorem foopprintCache_lazy (fetch : Int → Nat → List Footprint) (k : Int) :
    (∀ c : FoopprintCache,
      ((c.Get fetch k).2.2 = 1 ↔ c.cache k = none) ∧
      ((c.Get fetch k).2.2 = 0 ↔ ∃ v, c.cache k = some v)) ∧
    (footPrintCache0.Get fetch k).2.2 = 1 ∧
    ((footPrintCache0.Get fetch k).2.1).cache k = some ((footPrintCache0.Get fetch k).1) ∧
    (((footPrintCache0.Get fetch k).2.1).Get fetch k).2.2 = 0 ∧
    (((footPrintCache0.Get fetch k).2.1).Get fetch k).1 = (footPrintCache0.Get fetch k).1 ∧
    (((footPrintCache0.Get fetch k).2.1).Get fetch k).2.1 = (footPrintCache0.Get fetch k).2.1 ∧
    (∀ c : FoopprintCache,
      ((c.Invalidate k).Get fetch k).2.2 = 1 ∧
      ((c.Invalidate k).Get fetch k).1 = fetch k 50) := by
  have h0 : footPrintCache0.cache k = none := rfl
  have hm := foopprint_get_miss footPrintCache0 fetch k h0
  refine ⟨?_, ?_, ?_, ?_, ?_, ?_, ?_⟩
  · intro c
    rcases hcc : c.cache k with _ | v
    · rw [foopprint_get_miss c fetch k hcc]
      refine ⟨by simp [hcc], by simp [hcc]⟩
    · rw [foopprint_get_hit c fetch k v hcc]
      refine ⟨by simp [hcc], by simp [hcc]⟩
  · rw [hm]
  · rw [hm]
    simp
  · rw [hm, foopprint_get_hit _ fetch k (fetch k 50) (by simp)]
  · rw [hm, foopprint_get_hit _ fetch k (fetch k 50) (by simp)]
  · rw [hm, foopprint_get_hit _ fetch k (fetch k 50) (by simp)]
  · intro c
    have hinv : (c.Invalidate k).cache k = none := by
      unfold FoopprintCache.Invalidate
      simp
    rw [foopprint_get_miss _ fetch k hinv]
    exact ⟨rfl, rfl⟩

/-- **C9** Empty Store results are cached exactly like non-empty ones: when
the fetch for `k` returns the empty list, the first `Get(k)` stores `[]`
under `k`, and every later `Get(k)` before an `Invalidate(k)` returns `[]`
with zero further fetches and an unchanged cache. -/
theorem foopprintCache_negative_caching (fetch : Int → Nat → List Footprint) (k : Int)
    (h : fetch k 50 = []) :
    (footPrintCache0.Get fetch k).1 = [] ∧
    ((footPrintCache0.Get fetch k).2.1).cache k = some [] ∧
    (∀ c : FoopprintCache, c.cache k = some [] →
      (c.Get fetch k).1 = [] ∧ (c.Get fetch k).2.1 = c ∧ (c.Get fetch k).2.2 = 0) := by
  have h0 : footPrintCache0.cache k = none := rfl
  rw [foopprint_get_miss footPrintCache0 fetch k h0]
  refine ⟨h, by simp [h], ?_⟩
  intro c hc
  rw [foopprint_get_hit c fetch k [] hc]
  exact ⟨rfl, rfl, rfl⟩

theorem foopprintCache_negative_caching_witness :
    ((fun (_ : Int) (_ : Nat) => ([] : List Footprint)) 42 50 = []) ∧
    (footPrintCache0.Get (fun _ _ => []) 42).1 = [] ∧
    ((⟨fun j => if j = 42 then some [] else none⟩ : FoopprintCache).Get
        (fun _ _ => []) 42).2.2 = 0 := by
  have h := foopprintCache_negative_caching (fun _ _ => []) 42 rfl
  exact ⟨rfl, h.1,
    (h.2.2 ⟨fun j => if j = 42 then some [] else none⟩ (by simp)).2.2⟩

/-- **C6** `markFootprint(visitor, owner)` with `visitor ≠ owner` performs
exactly one Store write, the row `(owner, visitor)`, and removes exactly the
cache entry for key `owner`, leaving every other key (in particular the
visitor's) unchanged; with `visitor = owner` it performs no Store write and
leaves the cache entirely unchanged. -/
theorem markFootprint_frame (s : FPState) (visitor owner k : Int) :
    ((markFootprint s visitor owner).writes =
      if visitor = owner then s.writes else s.writes ++ [(owner, visitor)]) ∧
    ((markFootprint s visitor owner).cache.cache k =
      if visitor ≠ owner ∧ k = owner then none else s.cache.cache k) := by
  unfold markFootprint
  by_cases h : visitor = owner
  · rw [if_neg (not_not_intro h)]
    refine ⟨by rw [if_pos h], ?_⟩
    rw [if_neg (fun hc => hc.1 h)]
  · rw [if_pos h]
    refine ⟨by rw [if_neg h], ?_⟩
    show (if k = owner then none else s.cache.cache k) =
      if visitor ≠ owner ∧ k = owner then none else s.cache.cache k
    by_cases hk : k = owner
    · rw [if_pos hk, if_pos ⟨h, hk⟩]
    · rw [if_neg hk, if_neg (fun hc => hk hc.2)]

/-! ## SnapshotMirror lemmas -/

theorem init_users_not_mem : ∀ (rows : List User) (s : UserRepo) (k : Int),
    (∀ u ∈ rows, u.ID ≠ k) → (rows.foldl UserRepo.insertRow s).users k = s.users k
  | [], _, _, _ => rfl
  | u :: rows, s, k, h => by
      simp only [List.foldl_cons]
      rw [init_users_not_mem rows _ k (fun v hv => h v (List.mem_cons_of_mem u hv))]
      show (if k = u.ID then some u else s.users k) = s.users k
      rw [if_neg (Ne.symm (h u (List.mem_cons_self u rows)))]

theorem init_byMail_not_mem : ∀ (rows : List User) (s : UserRepo) (e : String),
    (∀ u ∈ rows, u.Email ≠ e) → (rows.foldl UserRepo.insertRow s).byMail e = s.byMail e
  | [], _, _, _ => rfl
  | u :: rows, s, e, h => by
      simp only [List.foldl_cons]
      rw [init_byMail_not_mem rows _ e (fun v hv => h v (List.mem_cons_of_mem u hv))]
      show (if e = u.Email then u.ID else s.byMail e) = s.byMail e
      rw [if_neg (Ne.symm (h u (List.mem_cons_self u rows)))]

theorem init_byAccount_not_mem : ∀ (rows : List User) (s : UserRepo) (a : String),
    (∀ u ∈ rows, u.AccountName ≠ a) →
      (rows.foldl UserRepo.insertRow s).byAccount a = s.byAccount a
  | [], _, _, _ => rfl
  | u :: rows, s, a, h => by
      simp only [List.foldl_cons]
      rw [init_byAccount_not_mem rows _ a (fun v hv => h v (List.mem_cons_of_mem u hv))]
      show (if a = u.AccountName then u.ID else s.byAccount a) = s.byAccount a
      rw [if_neg (Ne.symm (h u (List.mem_cons_self u rows)))]

/-- In a load whose rows have pairwise-distinct ids, addresses and handles,
every row ends up in the primary map under its id and both secondary
indexes point at its id. -/
theorem init_lookup : ∀ (rows : List User) (s : UserRepo),
    rows.Pairwise (fun u v => u.ID ≠ v.ID) →
    rows.Pairwise (fun u v => u.Email ≠ v.Email) →
    rows.Pairwise (fun u v => u.AccountName ≠ v.AccountName) →
    ∀ u ∈ rows,
      (rows.foldl UserRepo.insertRow s).users u.ID = some u ∧
      (rows.foldl UserRepo.insertRow s).byMail u.Email = u.ID ∧
      (rows.foldl UserRepo.insertRow s).byAccount u.AccountName = u.ID
  | [], _, _, _, _, u, hu => absurd hu (List.not_mem_nil u)
  | v :: rows, s, hid, hml, hac, u, hu => by
      rcases List.mem_cons.mp hu with rfl | hu'
      · simp only [List.foldl_cons]
        refine ⟨?_, ?_, ?_⟩
        · rw [init_users_not_mem rows _ u.ID
            (fun w hw => Ne.symm ((List.pairwise_cons.mp hid).1 w hw))]
          show (if u.ID = u.ID then some u else s.users u.ID) = some u
          rw [if_pos rfl]
        · rw [init_byMail_not_mem rows _ u.Email
            (fun w hw => Ne.symm ((List.pairwise_cons.mp hml).1 w hw))]
          show (if u.Email = u.Email then u.ID else s.byMail u.Email) = u.ID
          rw [if_pos rfl]
        · rw [init_byAccount_not_mem rows _ u.AccountName
            (fun w hw => Ne.symm ((List.pairwise_cons.mp hac).1 w hw))]
          show (if u.AccountName = u.AccountName then u.ID else s.byAccount u.AccountName) = u.ID
          rw [if_pos rfl]
      · simp only [List.foldl_cons]
        exact init_lookup rows _ (List.pairwise_cons.mp hid).2 (List.pairwise_cons.mp hml).2
          (List.pairwise_cons.mp hac).2 u hu'

/-- **C7, as stated, is false**: over a Store user table containing a user
with id 0 the secondary lookups disagree with the primary lookup, because
`GetByMail`/`GetByAccount` treat the index value 0 as "absent".  Concretely,
with the single loaded user `{0, "alice", "Alice", "alice@x"}`,
`GetByMail("alice@x")` is `nil` while `Get(0)` returns the user. -/
theorem userRepo_secondary_lookup_counterexample :
    ¬ ((UserRepo.Init [⟨0, "alice", "Alice", "alice@x"⟩]).GetByMail "alice@x" =
        (UserRepo.Init [⟨0, "alice", "Alice", "alice@x"⟩]).Get 0) := by
  intro h
  have h1 : (UserRepo.Init [⟨0, "alice", "Alice", "alice@x"⟩]).GetByMail "alice@x" = none := rfl
  have h2 : (UserRepo.Init [⟨0, "alice", "Alice", "alice@x"⟩]).Get 0 =
      some ⟨0, "alice", "Alice", "alice@x"⟩ := rfl
  rw [h1, h2] at h
  exact Option.noConfusion h

/-- **C7** (amended) After `Init` over a Store user table whose rows have
pairwise-distinct ids, addresses and handles (the data model's uniqueness
invariants) and whose ids are all nonzero, the secondary-index lookups
agree with the primary lookup for every loaded user u:
`GetByMail(u.Email) = Get(u.ID) = some u` and
`GetByAccount(u.AccountName) = Get(u.ID) = some u`. -/
theorem userRepo_secondary_lookup_consistent (rows : List User)
    (hid : rows.Pairwise (fun u v => u.ID ≠ v.ID))
    (hml : rows.Pairwise (fun u v => u.Email ≠ v.Email))
    (hac : rows.Pairwise (fun u v => u.AccountName ≠ v.AccountName))
    (hz : ∀ u ∈ rows, u.ID ≠ 0) :
    ∀ u ∈ rows,
      (UserRepo.Init rows).Get u.ID = some u ∧
      (UserRepo.Init rows).GetByMail u.Email = (UserRepo.Init rows).Get u.ID ∧
      (UserRepo.Init rows).GetByAccount u.AccountName = (UserRepo.Init rows).Get u.ID := by
  intro u hu
  have hL : (UserRepo.Init rows).users u.ID = some u ∧
      (UserRepo.Init rows).byMail u.Email = u.ID ∧
      (UserRepo.Init rows).byAccount u.AccountName = u.ID :=
    init_lookup rows ⟨fun _ => none, fun _ => 0, fun _ => 0⟩ hid hml hac u hu
  have hu0 : u.ID ≠ 0 := hz u hu
  refine ⟨hL.1, ?_, ?_⟩
  · show (if (UserRepo.Init rows).byMail u.Email ≠ 0 then
        (UserRepo.Init rows).users ((UserRepo.Init rows).byMail u.Email) else none) =
      (UserRepo.Init rows).Get u.ID
    rw [hL.2.1, if_pos hu0]
    rfl
  · show (if (UserRepo.Init rows).byAccount u.AccountName ≠ 0 then
        (UserRepo.Init rows).users ((UserRepo.Init rows).byAccount u.AccountName) else none) =
      (UserRepo.Init rows).Get u.ID
    rw [hL.2.2, if_pos hu0]
    rfl

theorem userRepo_secondary_lookup_consistent_witness :
    (UserRepo.Init [⟨1, "alice", "Alice", "alice@x"⟩, ⟨2, "bob", "Bob", "bob@x"⟩]).GetByMail
        "alice@x" =
      (UserRepo.Init [⟨1, "alice", "Alice", "alice@x"⟩, ⟨2, "bob", "Bob", "bob@x"⟩]).Get 1 := by
  have h := userRepo_secondary_lookup_consistent
    [⟨1, "alice", "Alice", "alice@x"⟩, ⟨2, "bob", "Bob", "bob@x"⟩]
    (by decide) (by decide) (by decide) (by decide)
    ⟨1, "alice", "Alice", "alice@x"⟩ (List.mem_cons_self _ _)
  exact h.2.1

/-- **C10** The secondary lookups return `nil` without consulting the Store
(they are pure functions of the mirror) whenever the index maps the key to
id 0 — which includes every key absent from the loaded set — and
consequently a user loaded with id 0 is returned by `Get(0)` but is
unreachable through `GetByMail`/`GetByAccount` of its own address/handle. -/
theorem userRepo_zero_id_unreachable :
    (∀ (r : UserRepo) (e a : String),
      (r.byMail e = 0 → r.GetByMail e = none) ∧
      (r.byAccount a = 0 → r.GetByAccount a = none)) ∧
    (∀ (rows : List User) (e a : String),
      ((∀ u ∈ rows, u.Email ≠ e) → (UserRepo.Init rows).byMail e = 0) ∧
      ((∀ u ∈ rows, u.AccountName ≠ a) → (UserRepo.Init rows).byAccount a = 0)) ∧
    (∀ (rows : List User) (u : User), u ∈ rows → u.ID = 0 →
      rows.Pairwise (fun v w => v.ID ≠ w.ID) →
      rows.Pairwise (fun v w => v.Email ≠ w.Email) →
      rows.Pairwise (fun v w => v.AccountName ≠ w.AccountName) →
      (UserRepo.Init rows).Get 0 = some u ∧
      (UserRepo.Init rows).GetByMail u.Email = none ∧
      (UserRepo.Init rows).GetByAccount u.AccountName = none) := by
  refine ⟨?_, ?_, ?_⟩
  · intro r e a
    constructor
    · intro h
      show (if r.byMail e ≠ 0 then r.users (r.byMail e) else none) = none
      rw [h, if_neg (not_not_intro rfl)]
    · intro h
      show (if r.byAccount a ≠ 0 then r.users (r.byAccount a) else none) = none
      rw [h, if_neg (not_not_intro rfl)]
  · intro rows e a
    exact ⟨fun h => init_byMail_not_mem rows ⟨fun _ => none, fun _ => 0, fun _ => 0⟩ e h,
      fun h => init_byAccount_not_mem rows ⟨fun _ => none, fun _ => 0, fun _ => 0⟩ a h⟩
  · intro rows u hu h0 hid hml hac
    have hL : (UserRepo.Init rows).users u.ID = some u ∧
        (UserRepo.Init rows).byMail u.Email = u.ID ∧
        (UserRepo.Init rows).byAccount u.AccountName = u.ID :=
      init_lookup rows ⟨fun _ => none, fun _ => 0, fun _ => 0⟩ hid hml hac u hu
    refine ⟨?_, ?_, ?_⟩
    · show (UserRepo.Init rows).users 0 = some u
      rw [← h0]
      exact hL.1
    · show (if (UserRepo.Init rows).byMail u.Email ≠ 0 then
          (UserRepo.Init rows).users ((UserRepo.Init rows).byMail u.Email) else none) = none
      rw [hL.2.1, h0, if_neg (not_not_intro rfl)]
    · show (if (UserRepo.Init rows).byAccount u.AccountName ≠ 0 then
          (UserRepo.Init rows).users ((UserRepo.Init rows).byAccount u.AccountName)
        else none) = none
      rw [hL.2.2, h0, if_neg (not_not_intro rfl)]

theorem userRepo_zero_id_unreachable_witness :
    (UserRepo.Init [⟨0, "alice", "Alice", "alice@x"⟩]).Get 0 =
        some ⟨0, "alice", "Alice", "alice@x"⟩ ∧
    (UserRepo.Init [⟨0, "alice", "Alice", "alice@x"⟩]).GetByMail "alice@x" = none ∧
    (UserRepo.Init []).byMail "ghost@x" = 0 ∧
    (UserRepo.Init []).GetByMail "ghost@x" = none := by
  have h3 := userRepo_zero_id_unreachable.2.2 [⟨0, "alice", "Alice", "alice@x"⟩]
    ⟨0, "alice", "Alice", "alice@x"⟩ (List.mem_cons_self _ _) rfl
    (by decide) (by decide) (by decide)
  have h2 : (UserRepo.Init []).byMail "ghost@x" = 0 :=
    (userRepo_zero_id_unreachable.2.1 [] "ghost@x" "ghost@x").1
      (fun u hu => absurd hu (List.not_mem_nil u))
  have h1 : (UserRepo.Init []).GetByMail "ghost@x" = none :=
    (userRepo_zero_id_unreachable.1 (UserRepo.Init []) "ghost@x" "ghost@x").1 h2
  exact ⟨h3.1, h3.2.1, h2, h1⟩

/-! ## Initialization wiring -/

/-- **C8, as stated, is false for the LazyPerKeyCache**: the footprint cache
is never bulk-loaded.  With a Store whose footprint accessor returns a
nonempty group list for user 3, the administrative reset leaves the cache
entry for key 3 empty (`none`), so the cache does not reflect the Store's
footprints; the same holds at process start. -/
theorem getInitialize_footprint_not_loaded :
    (GetInitialize
        (startupCaches ⟨[], [], [], [], [], fun k _ => if k = 3 then [⟨3, 7, 1, 1⟩] else []⟩)
        ⟨[], [], [], [], [], fun k _ => if k = 3 then [⟨3, 7, 1, 1⟩] else []⟩).footPrintCache.cache
        3 = none ∧
    (startupCaches
        ⟨[], [], [], [], [], fun k _ => if k = 3 then [⟨3, 7, 1, 1⟩] else []⟩).footPrintCache.cache
        3 = none ∧
    (⟨[], [], [], [], [], fun k _ => if k = 3 then [⟨3, 7, 1, 1⟩] else []⟩ : Store).footprints
        3 50 ≠ [] := by
  refine ⟨rfl, rfl, ?_⟩
  intro h
  simp at h

/-- **C8** (amended) Process start and the administrative reset rebuild the
caches identically from the Store: the two snapshot mirrors, the adjacency
cache and both recency windows are bulk-loaded from the Store's rows, while
the footprint LazyPerKeyCache is left empty at every key — it is never
bulk-loaded — and is repopulated lazily, one fresh Store fetch per key, by
later `Get` calls. -/
theorem caches_rebuild (s : Store) (prev : Caches) :
    GetInitialize prev s = startupCaches s ∧
    (GetInitialize prev s).entryCache.Get = s.entryRows.reverse ∧
    (GetInitialize prev s).commentCache.Get = s.commentRows.reverse ∧
    (GetInitialize prev s).friendRepo = friendRepo0.Init s.relations ∧
    (GetInitialize prev s).userRepo = UserRepo.Init s.users ∧
    (GetInitialize prev s).profileRepo = ProfileRepo.Init s.profiles ∧
    (∀ k, (GetInitialize prev s).footPrintCache.cache k = none) ∧
    (∀ k, ((GetInitialize prev s).footPrintCache.Get s.footprints k).1 = s.footprints k 50 ∧
      ((GetInitialize prev s).footPrintCache.Get s.footprints k).2.2 = 1) := by
  refine ⟨rfl, reverseInPlace_eq_reverse s.entryRows, reverseInPlace_eq_reverse s.commentRows,
    rfl, rfl, rfl, fun _ => rfl, ?_⟩
  intro k
  rw [foopprint_get_miss _ s.footprints k rfl]
  exact ⟨rfl, rfl⟩

end Isucon
